import Mathlib

/-!
Verification of the content-extraction and question-synthesis core of the
AI-Reviewer study-aid application.

Strings are modelled as `List Char`.  The JavaScript string operations used by
the source (`trim`, `startsWith`, `endsWith`, `slice`, `split`, template
literals, `||` string truthiness) are embedded as executable functions on
`List Char`.  `JSON.parse` (a host builtin) is embedded as an executable
recursive-descent parser for the JSON grammar; numbers keep their source
lexeme, which is all the program ever observes.
-/

namespace AIReviewer

/-- Whitespace characters recognised by the embedding of JavaScript
`String.prototype.trim` (the source texts only ever contain these). -/
def wsChar (c : Char) : Bool :=
  c = ' ' || c = '\t' || c = '\n' || c = '\r'

/-- Embedding of JavaScript `String.prototype.trim`: drop leading and trailing
whitespace. -/
def trim (l : List Char) : List Char :=
  (((l.dropWhile wsChar).reverse.dropWhile wsChar)).reverse

/-- Embedding of JavaScript `String.prototype.startsWith`. -/
def startsWith : List Char → List Char → Bool
  | [], _ => true
  | _ :: _, [] => false
  | p :: ps, c :: cs => p == c && startsWith ps cs

/-- Embedding of JavaScript `String.prototype.endsWith`. -/
def endsWith (p l : List Char) : Bool :=
  startsWith p.reverse l.reverse

/-- Embedding of JavaScript `s.slice(0, -n)` (drop the last `n` characters). -/
def dropRight (l : List Char) (n : Nat) : List Char :=
  (l.reverse.drop n).reverse

/-- Embedding of JavaScript `String.prototype.split` with a one-character
separator (`"".split(sep) = [""]`, adjacent separators give empty pieces). -/
def splitOnChar (sep : Char) : List Char → List (List Char)
  | [] => [[]]
  | c :: rest =>
    match splitOnChar sep rest with
    | [] => [[c]]
    | g :: gs => if c = sep then [] :: g :: gs else (c :: g) :: gs

/-- Numeric value of a string of decimal digits (the behaviour of JavaScript
`parseInt` on the all-digit strings produced by the slide-number regex). -/
def digitsVal (ds : List Char) : Nat :=
  ds.foldl (fun n c => 10 * n + (c.toNat - 48)) 0

/-- Embedding of JavaScript `Array.prototype.join` on string pieces. -/
def joinSep (sep : List Char) : List (List Char) → List Char
  | [] => []
  | [g] => g
  | g :: g2 :: gs => g ++ sep ++ joinSep sep (g2 :: gs)

/-! ## JSON values and parser (embedding of the `JSON.parse` builtin) -/

/-- A JSON value as returned by `JSON.parse`.  Numbers keep their source
lexeme: the program never inspects numeric values except for truthiness. -/
inductive Json where
  | null : Json
  | bool : Bool → Json
  | num : List Char → Json
  | str : List Char → Json
  | arr : List Json → Json
  | obj : List (List Char × Json) → Json

/-- JSON insignificant whitespace. -/
def jsonWs (c : Char) : Bool :=
  c = ' ' || c = '\t' || c = '\n' || c = '\r'

/-- Skip JSON whitespace. -/
def skipWs (l : List Char) : List Char :=
  l.dropWhile jsonWs

/-- Consume an expected literal, or fail. -/
def expectLit (p l : List Char) : Option (List Char) :=
  if startsWith p l then some (l.drop p.length) else none

/-- Hex digit value. -/
def hexVal (c : Char) : Option Nat :=
  if c.isDigit then some (c.toNat - 48)
  else if 'a' ≤ c ∧ c ≤ 'f' then some (c.toNat - 87)
  else if 'A' ≤ c ∧ c ≤ 'F' then some (c.toNat - 55)
  else none

/-- Parse the body of a JSON string after the opening quote; returns the
decoded characters and the input following the closing quote. -/
def parseStringBody : List Char → Option (List Char × List Char)
  | [] => none
  | c :: rest =>
    if c = '"' then some ([], rest)
    else if c = '\\' then
      match rest with
      | [] => none
      | e :: rest2 =>
        if e = '"' ∨ e = '\\' ∨ e = '/' then
          (parseStringBody rest2).map (fun (s, r) => (e :: s, r))
        else if e = 'b' then
          (parseStringBody rest2).map (fun (s, r) => (Char.ofNat 8 :: s, r))
        else if e = 'f' then
          (parseStringBody rest2).map (fun (s, r) => (Char.ofNat 12 :: s, r))
        else if e = 'n' then
          (parseStringBody rest2).map (fun (s, r) => ('\n' :: s, r))
        else if e = 'r' then
          (parseStringBody rest2).map (fun (s, r) => ('\r' :: s, r))
        else if e = 't' then
          (parseStringBody rest2).map (fun (s, r) => ('\t' :: s, r))
        else if e = 'u' then
          match rest2 with
          | h1 :: h2 :: h3 :: h4 :: rest3 =>
            match hexVal h1, hexVal h2, hexVal h3, hexVal h4 with
            | some a, some b, some c1, some d =>
              (parseStringBody rest3).map
                (fun (s, r) => (Char.ofNat (((a * 16 + b) * 16 + c1) * 16 + d) :: s, r))
            | _, _, _, _ => none
          | _ => none
        else none
    else if c.toNat < 32 then none
    else (parseStringBody rest).map (fun (s, r) => (c :: s, r))

/-- Parse a JSON number lexeme (`-? int frac? exp?`); returns the lexeme and
the rest of the input. -/
def parseNumLexeme (l : List Char) : Option (List Char × List Char) :=
  let (neg, s1) :=
    match l with
    | '-' :: r => (['-'], r)
    | _ => (([] : List Char), l)
  match s1 with
  | [] => none
  | c :: _ =>
    if c.isDigit then
      let intPart := if c = '0' then ['0'] else s1.takeWhile Char.isDigit
      let s2 := s1.drop intPart.length
      let fracRes :=
        match s2 with
        | '.' :: r =>
          let ds := r.takeWhile Char.isDigit
          if ds = [] then none else some ('.' :: ds, r.drop ds.length)
        | _ => some (([] : List Char), s2)
      match fracRes with
      | none => none
      | some (fracPart, s3) =>
        match s3 with
        | e :: r =>
          if e = 'e' ∨ e = 'E' then
            let (sgn, r2) :=
              match r with
              | '+' :: rr => (['+'], rr)
              | '-' :: rr => (['-'], rr)
              | _ => (([] : List Char), r)
            let ds := r2.takeWhile Char.isDigit
            if ds = [] then none
            else some (neg ++ intPart ++ fracPart ++ e :: sgn ++ ds, r2.drop ds.length)
          else some (neg ++ intPart ++ fracPart, s3)
        | [] => some (neg ++ intPart ++ fracPart, s3)
    else none


mutual

/-- Parse a JSON value (fuel-indexed so that recursion is structural and the
definition evaluates inside the kernel). -/
def parseValue : Nat → List Char → Option (Json × List Char)
  | 0, _ => none
  | fuel + 1, s =>
    let s := skipWs s
    match s with
    | [] => none
    | c :: rest =>
      if c = '{' then
        (parseObjItems fuel rest).map (fun (ms, r) => (Json.obj ms, r))
      else if c = '[' then
        (parseArrItems fuel rest).map (fun (vs, r) => (Json.arr vs, r))
      else if c = '"' then
        (parseStringBody rest).map (fun (cs, r) => (Json.str cs, r))
      else if c = 't' then
        (expectLit "rue".toList rest).map (fun r => (Json.bool true, r))
      else if c = 'f' then
        (expectLit "alse".toList rest).map (fun r => (Json.bool false, r))
      else if c = 'n' then
        (expectLit "ull".toList rest).map (fun r => (Json.null, r))
      else if c = '-' ∨ c.isDigit then
        (parseNumLexeme s).map (fun (lex, r) => (Json.num lex, r))
      else none

/-- Parse the items of a JSON array after the opening bracket. -/
def parseArrItems : Nat → List Char → Option (List Json × List Char)
  | 0, _ => none
  | fuel + 1, s =>
    let s := skipWs s
    match s with
    | ']' :: rest => some ([], rest)
    | _ =>
      match parseValue fuel s with
      | none => none
      | some (v, r) => (parseArrTail fuel r).map (fun (vs, r2) => (v :: vs, r2))

/-- Parse `, value`* `]` after one array element. -/
def parseArrTail : Nat → List Char → Option (List Json × List Char)
  | 0, _ => none
  | fuel + 1, s =>
    match skipWs s with
    | ']' :: rest => some ([], rest)
    | ',' :: rest =>
      match parseValue fuel rest with
      | none => none
      | some (v, r) => (parseArrTail fuel r).map (fun (vs, r2) => (v :: vs, r2))
    | _ => none

/-- Parse the members of a JSON object after the opening brace. -/
def parseObjItems : Nat → List Char → Option (List (List Char × Json) × List Char)
  | 0, _ => none
  | fuel + 1, s =>
    match skipWs s with
    | '}' :: rest => some ([], rest)
    | '"' :: rest =>
      match parseMember fuel rest with
      | none => none
      | some (m, r) => (parseObjTail fuel r).map (fun (ms, r2) => (m :: ms, r2))
    | _ => none

/-- Parse `, "key": value`* `}` after one object member. -/
def parseObjTail : Nat → List Char → Option (List (List Char × Json) × List Char)
  | 0, _ => none
  | fuel + 1, s =>
    match skipWs s with
    | '}' :: rest => some ([], rest)
    | ',' :: rest =>
      match skipWs rest with
      | '"' :: rest2 =>
        match parseMember fuel rest2 with
        | none => none
        | some (m, r) => (parseObjTail fuel r).map (fun (ms, r2) => (m :: ms, r2))
      | _ => none
    | _ => none

/-- Parse one object member after its opening quote. -/
def parseMember : Nat → List Char → Option ((List Char × Json) × List Char)
  | 0, _ => none
  | fuel + 1, s =>
    match parseStringBody s with
    | none => none
    | some (key, r) =>
      match skipWs r with
      | ':' :: r2 =>
        (parseValue fuel r2).map (fun (v, r3) => ((key, v), r3))
      | _ => none

end

/-- Embedding of the `JSON.parse` builtin: parse one JSON value and require
that only whitespace follows; `none` models a thrown `SyntaxError`. -/
def jsonParse (l : List Char) : Option Json :=
  match parseValue (2 * l.length + 2) l with
  | some (v, rest) => if skipWs rest = [] then some v else none
  | none => none

/-! ## Question synthesizer (src/lib/groq.ts; src/lib/gemini.ts is
identical for response parsing and differs only in the mixed-mode split) -/

/-- The question-type selector (`QuestionType`, declared in
src/config/questions.ts and used by both AI clients): the three concrete
question types plus the input-only `mixed` selector. -/
inductive QuestionType where
  | multiple_choice : QuestionType
  | identification : QuestionType
  | true_false : QuestionType
  | mixed : QuestionType
deriving DecidableEq

/-- The string carried by a `QuestionType` value at run time (TypeScript
string-union values). -/
def QuestionType.key : QuestionType → List Char
  | .multiple_choice => "multiple_choice".toList
  | .identification => "identification".toList
  | .true_false => "true_false".toList
  | .mixed => "mixed".toList

/-- A `GeneratedQuestion` as built by `parseQuestionsFromResponse`.  Field
values come from an untyped `JSON.parse` result, so they are `Json` values;
`options`/`explanation` are `none` when the source field was absent or falsy
(`q.options || undefined`). -/
structure GeneratedQuestion where
  qtype : Json
  question_text : Json
  correct_answer : Json
  options : Option Json
  explanation : Option Json

/-- Whether a JSON number lexeme denotes zero (sign, digits and exponent with
an all-zero mantissa). -/
def zeroLexeme (lex : List Char) : Bool :=
  (lex.filter Char.isDigit ≠ []) &&
  ((lex.takeWhile (fun c => c ≠ 'e' ∧ c ≠ 'E')).filter Char.isDigit).all (· = '0')

/-- JavaScript truthiness of a JSON value (`false`, `0`, `""` and `null` are
falsy; objects and arrays are always truthy). -/
def truthy : Json → Bool
  | .null => false
  | .bool b => b
  | .num lex => !zeroLexeme lex
  | .str s => !s.isEmpty
  | .arr _ => true
  | .obj _ => true

/-- Property lookup on a parsed JSON object (`undefined` is `none`; with
duplicate keys `JSON.parse` keeps the last binding). -/
def jsGet (fields : List (List Char × Json)) (key : List Char) : Option Json :=
  (fields.reverse.find? (fun m => m.fst == key)).map Prod.snd

/-- Embedding of `x || d` where `d` is a string literal: the left operand if
truthy, otherwise the string default. -/
def jsOrStr (v : Option Json) (d : List Char) : Json :=
  match v with
  | some x => if truthy x then x else Json.str d
  | none => Json.str d

/-- Embedding of `x || undefined`. -/
def jsOrUndef (v : Option Json) : Option Json :=
  match v with
  | some x => if truthy x then some x else none
  | none => none

/-- The coercion applied to each parsed array element in
`parseQuestionsFromResponse` (`questions.map((q, index) => ...)`), with the
0-based map index.  Property access on `null` throws a `TypeError` (modelled
as `Except.error`); on any other non-object value it yields `undefined`. -/
def coerceItem (tyKey : List Char) (index : Nat) : Json → Except Unit GeneratedQuestion
  | .null => .error ()
  | .obj fs =>
    .ok
      { qtype := jsOrStr (jsGet fs "type".toList) tyKey
        question_text :=
          jsOrStr (jsGet fs "question_text".toList)
            ("Question ".toList ++ (Nat.repr (index + 1)).toList)
        correct_answer := jsOrStr (jsGet fs "correct_answer".toList) []
        options := jsOrUndef (jsGet fs "options".toList)
        explanation := jsOrUndef (jsGet fs "explanation".toList) }
  | _ =>
    .ok
      { qtype := Json.str tyKey
        question_text := Json.str ("Question ".toList ++ (Nat.repr (index + 1)).toList)
        correct_answer := Json.str []
        options := none
        explanation := none }

/-- `questions.map((q, index) => ...)` over the parsed array: a `TypeError`
on any element aborts the whole map. -/
def coerceAll (tyKey : List Char) : Nat → List Json → Except Unit (List GeneratedQuestion)
  | _, [] => .ok []
  | index, j :: js =>
    match coerceItem tyKey index j with
    | .error e => .error e
    | .ok q =>
      match coerceAll tyKey (index + 1) js with
      | .error e => .error e
      | .ok qs => .ok (q :: qs)

/-- The response-cleaning step of `parseQuestionsFromResponse`: trim, strip a
leading ```` ```json ```` or bare ```` ``` ```` fence marker, strip a trailing
```` ``` ```` marker, trim again. -/
def cleanResponse (t : List Char) : List Char :=
  let t1 := trim t
  let t2 :=
    if startsWith "```json".toList t1 then t1.drop 7
    else if startsWith "```".toList t1 then t1.drop 3
    else t1
  let t3 := if endsWith "```".toList t2 then dropRight t2 3 else t2
  trim t3

/-- The failure value of the synthesizer's parse step: the thrown error
message together with the raw response text written to the diagnostic log
(`console.error('Raw response:', responseText)`). -/
structure SynthesisFailure where
  message : List Char
  raw : List Char

/-- The error message thrown by `parseQuestionsFromResponse`. -/
def parseFailureMessage : List Char :=
  "Failed to parse generated questions".toList

/-- The catch-and-rethrow step of `parseQuestionsFromResponse`: a coercion
`TypeError` is caught and rethrown as the malformed-response error carrying
the raw response text. -/
def coerceResult (raw : List Char) :
    Except Unit (List GeneratedQuestion) →
      Except SynthesisFailure (List GeneratedQuestion)
  | .ok qs => .ok qs
  | .error _ => .error ⟨parseFailureMessage, raw⟩

/-- Embedding of `parseQuestionsFromResponse` (identical in src/lib/groq.ts
and src/lib/gemini.ts): clean the response, `JSON.parse` it, and coerce each
element; any failure is caught and rethrown with the raw text logged. -/
def parseQuestionsFromResponse (responseText : List Char) (ty : QuestionType) :
    Except SynthesisFailure (List GeneratedQuestion) :=
  match jsonParse (cleanResponse responseText) with
  | some (Json.arr items) => coerceResult responseText (coerceAll ty.key 0 items)
  | _ => .error ⟨parseFailureMessage, responseText⟩

/-- The response-processing path of `generateQuestions`: the requested
`count` shapes only the prompt sent to the remote model, never the parsing
of its response. -/
def generateQuestionsFromResponse (ty : QuestionType) (_count : Nat)
    (responseText : List Char) : Except SynthesisFailure (List GeneratedQuestion) :=
  parseQuestionsFromResponse responseText ty

/-- A model response consisting of JSON text wrapped in a markdown code fence
with the `json` language tag. -/
def wrapJsonFence (j : List Char) : List Char :=
  "```json\n".toList ++ j ++ "\n```".toList

/-- A model response consisting of JSON text wrapped in a bare markdown code
fence. -/
def wrapBareFence (j : List Char) : List Char :=
  "```\n".toList ++ j ++ "\n```".toList

/-- A JSON value that is a non-empty string. -/
def NonEmptyStringJson (j : Json) : Prop :=
  ∃ s, j = Json.str s ∧ s ≠ []

/-- The run-time strings of the three concrete question types. -/
def concreteTypeKeys : List (List Char) :=
  ["multiple_choice".toList, "identification".toList, "true_false".toList]

/-- A JSON value that is one of the three concrete question-type strings. -/
def IsConcreteType (j : Json) : Prop :=
  ∃ s, s ∈ concreteTypeKeys ∧ j = Json.str s

/-- Well-formedness of a parsed element's `type` field relative to the input
selector: a concrete type string when present and truthy, and otherwise the
selector itself must not be `mixed` (which has no per-question default). -/
def TypeFieldOk (ty : QuestionType) (fs : List (List Char × Json)) : Prop :=
  match jsGet fs "type".toList with
  | some v =>
    (∃ s, s ∈ concreteTypeKeys ∧ v = Json.str s) ∨
      (truthy v = false ∧ ty ≠ QuestionType.mixed)
  | none => ty ≠ QuestionType.mixed

/-- Mixed-mode multiple-choice sub-count in src/lib/groq.ts:
`Math.floor(count * 0.5)` (exact in binary floating point, hence floor
division by 2). -/
def groqMcCount (count : Int) : Int := Int.fdiv count 2

/-- Mixed-mode identification sub-count in src/lib/groq.ts:
`Math.floor(count * 0.25)`. -/
def groqIdCount (count : Int) : Int := Int.fdiv count 4

/-- Mixed-mode true/false sub-count in src/lib/groq.ts:
`count - mcCount - idCount`. -/
def groqTfCount (count : Int) : Int :=
  count - groqMcCount count - groqIdCount count

/-- Mixed-mode multiple-choice sub-count in src/lib/gemini.ts:
`Math.floor(count * 0.4)` (agrees with floor of 2·count/5 on the
caller-validated count range). -/
def geminiMcCount (count : Int) : Int := Int.fdiv (2 * count) 5

/-- Mixed-mode identification sub-count in src/lib/gemini.ts:
`Math.floor(count * 0.3)` (agrees with floor of 3·count/10 on the
caller-validated count range). -/
def geminiIdCount (count : Int) : Int := Int.fdiv (3 * count) 10

/-- Mixed-mode true/false sub-count in src/lib/gemini.ts:
`count - mcCount - idCount`. -/
def geminiTfCount (count : Int) : Int :=
  count - geminiMcCount count - geminiIdCount count

/-! ## Document extractor (src/lib/parsers/pptx.ts, pdf.ts and the
dispatcher in src/lib/parsers/index.ts) -/

/-- The `ParseResult.metadata` shape. -/
structure ParseMetadata where
  pageCount : Option Int := none
  slideCount : Option Nat := none
  title : Option (List Char) := none

/-- The `ParseResult` shape shared by every extraction strategy. -/
structure ParseResult where
  success : Bool
  content : List Char
  error : Option (List Char) := none
  metadata : Option ParseMetadata := none

/-- Leftmost-match scan for the slide-text regex `<a:t>([^<]*)<\/a:t>` with
the `g` flag: captures in order of occurrence.  Fuel-indexed so recursion is
structural; callers supply fuel exceeding the input length. -/
def scanATags : Nat → List Char → List (List Char)
  | 0, _ => []
  | _ + 1, [] => []
  | fuel + 1, c :: rest =>
    if startsWith "<a:t>".toList (c :: rest) then
      let body := (c :: rest).drop 5
      let cap := body.takeWhile (· ≠ '<')
      let after := body.dropWhile (· ≠ '<')
      if startsWith "</a:t>".toList after then cap :: scanATags fuel (after.drop 6)
      else scanATags fuel rest
    else scanATags fuel rest

/-- Leftmost-match scan for the fallback text regex `<t[^>]*>([^<]*)<\/t>`
with the `g` flag. -/
def scanTTags : Nat → List Char → List (List Char)
  | 0, _ => []
  | _ + 1, [] => []
  | fuel + 1, c :: rest =>
    if startsWith "<t".toList (c :: rest) then
      match ((c :: rest).drop 2).dropWhile (· ≠ '>') with
      | '>' :: rest2 =>
        let cap := rest2.takeWhile (· ≠ '<')
        let rest3 := rest2.dropWhile (· ≠ '<')
        if startsWith "</t>".toList rest3 then cap :: scanTTags fuel (rest3.drop 4)
        else scanTTags fuel rest
      | _ => scanTTags fuel rest
    else scanTTags fuel rest

/-- Whether a text fragment starts a new line in the re-flow heuristic:
`part.match(/^[\dâ€¢\-\*]/) || part.length > 50` (the source file stores the
bullet glyph as the three-character UTF-8 mojibake sequence). -/
def isNewChunkStart (p : List Char) : Bool :=
  (match p.head? with
   | some c =>
     c.isDigit || c = Char.ofNat 0xE2 || c = Char.ofNat 0x20AC ||
       c = Char.ofNat 0xA2 || c = '-' || c = '*'
   | none => false) || p.length > 50

/-- The fragment re-flow loop of `extractTextFromSlideXml`: `res` is the
accumulated `result`, `cur` the `currentLine`. -/
def reflowGo : List (List Char) → List Char → List Char → List Char
  | [], res, cur => if cur ≠ [] then res ++ cur else res
  | p :: ps, res, cur =>
    if isNewChunkStart p then
      if cur ≠ [] then reflowGo ps (res ++ cur ++ ['\n']) p
      else reflowGo ps res p
    else reflowGo ps res (cur ++ (if cur ≠ [] then [' '] else []) ++ p)

/-- Embedding of `extractTextFromSlideXml` (src/lib/parsers/pptx.ts):
primary `<a:t>` captures, then deduplicated fallback `<t...>` captures, then
the re-flow heuristic. -/
def extractTextFromSlideXml (xml : List Char) : List Char :=
  let primary := ((scanATags (xml.length + 1) xml).map trim).filter (· ≠ [])
  let parts := (scanTTags (xml.length + 1) xml).foldl
    (fun acc t =>
      let t' := trim t
      if t' ≠ [] ∧ ¬ acc.contains t' then acc ++ [t'] else acc)
    primary
  reflowGo parts [] []

/-- The slide-entry filter regex `/ppt\/slides\/slide\d+\.xml$/`: the path
must end with the literal directory part, one or more digits, and `.xml`. -/
def isSlidePath (p : List Char) : Bool :=
  let r := p.reverse
  startsWith ".xml".toList.reverse r &&
  (let r2 := r.drop 4
   let ds := r2.takeWhile Char.isDigit
   (!ds.isEmpty) && startsWith "ppt/slides/slide".toList.reverse (r2.drop ds.length))

/-- Leftmost match of the unanchored regex `/slide(\d+)\.xml/` used both for
the numeric sort key and for the `[Slide N]` header: the captured digit
string, if any. -/
def slideNumMatch : List Char → Option (List Char)
  | [] => none
  | c :: rest =>
    if startsWith "slide".toList (c :: rest) then
      let ds := ((c :: rest).drop 5).takeWhile Char.isDigit
      let after := ((c :: rest).drop 5).dropWhile Char.isDigit
      if ds ≠ [] ∧ startsWith ".xml".toList after then some ds
      else slideNumMatch rest
    else slideNumMatch rest

/-- The digit string shown in the `[Slide N]` header
(`slidePath.match(/slide(\d+)\.xml/)?.[1] || '?'`). -/
def slideNumStr (p : List Char) : List Char :=
  (slideNumMatch p).getD ['?']

/-- The numeric sort key
(`parseInt(a.match(/slide(\d+)\.xml/)?.[1] || '0')`). -/
def slideKey (p : List Char) : Nat :=
  digitsVal ((slideNumMatch p).getD ['0'])

/-- The comparator `(a, b) => numA - numB` as an ordering relation. -/
def slideLE (a b : List Char) : Prop := slideKey a ≤ slideKey b

instance : DecidableRel slideLE :=
  fun a b => inferInstanceAs (Decidable (slideKey a ≤ slideKey b))

instance : IsTotal (List Char) slideLE :=
  ⟨fun a b => Nat.le_total (slideKey a) (slideKey b)⟩

instance : IsTrans (List Char) slideLE :=
  ⟨fun _ _ _ => Nat.le_trans⟩

/-- The slide entries collected by `zip.forEach`, in archive order. -/
def slideEntryPaths (entries : List (List Char × List Char)) : List (List Char) :=
  (entries.map Prod.fst).filter isSlidePath

/-- The collected slide paths after `slideFiles.sort((a, b) => numA - numB)`
(a stable sort by the numeric key, as in the JavaScript engines targeted). -/
def sortedSlidePaths (entries : List (List Char × List Char)) : List (List Char) :=
  List.insertionSort slideLE (slideEntryPaths entries)

/-- Archive lookup `zip.file(path)?.async('text')`. -/
def lookupEntry (entries : List (List Char × List Char)) (p : List Char) :
    Option (List Char) :=
  (entries.find? (fun e => e.fst == p)).map Prod.snd

/-- One iteration of the slide-content loop: skip missing or empty XML
payloads and slides whose extracted text is blank, otherwise emit the
`[Slide N]` header plus the extracted text. -/
def slideBlock (entries : List (List Char × List Char)) (p : List Char) :
    Option (List Char) :=
  match lookupEntry entries p with
  | none => none
  | some xml =>
    if xml = [] then none
    else
      let stext := extractTextFromSlideXml xml
      if trim stext = [] then none
      else some ("[Slide ".toList ++ slideNumStr p ++ "]\n".toList ++ stext)

/-- Embedding of the body of `parsePPTX` once the archive is loaded: filter
and sort the slide entries, extract per-slide blocks, join them with a blank
line, and fail when nothing but whitespace was extracted. -/
def parsePPTXFromEntries (entries : List (List Char × List Char)) : ParseResult :=
  let slideFiles := sortedSlidePaths entries
  let slideContents := slideFiles.filterMap (slideBlock entries)
  let fullContent := joinSep "\n\n".toList slideContents
  if trim fullContent = [] then
    { success := false, content := []
      error := some "No text content found in the PowerPoint file".toList }
  else
    { success := true, content := fullContent
      metadata := some { slideCount := some slideFiles.length } }

/-- Embedding of `parsePPTX`: `none` models an archive whose load throws
(`JSZip.loadAsync` failure), caught by the surrounding `try`. -/
def parsePPTXFromArchive (archive : Option (List (List Char × List Char))) :
    ParseResult :=
  match archive with
  | none =>
    { success := false, content := []
      error := some "Failed to parse PowerPoint".toList }
  | some entries => parsePPTXFromEntries entries

/-- Collapse runs of spaces and tabs to a single space
(`.replace(/[ \t]+/g, ' ')`). -/
def collapseST : List Char → List Char
  | [] => []
  | [a] => if a = ' ' ∨ a = '\t' then [' '] else [a]
  | a :: b :: rest =>
    if a = ' ' ∨ a = '\t' then
      if b = ' ' ∨ b = '\t' then collapseST (b :: rest)
      else ' ' :: collapseST (b :: rest)
    else a :: collapseST (b :: rest)

/-- Replacement for one newline run of length `n`. -/
def collapseNLEmit (n : Nat) : List Char :=
  if n ≥ 3 then ['\n', '\n'] else List.replicate n '\n'

/-- Collapse runs of three or more newlines to exactly two
(`.replace(/\n{3,}/g, '\n\n')`); `n` counts the pending newline run. -/
def collapseNLGo : Nat → List Char → List Char
  | n, [] => collapseNLEmit n
  | n, c :: rest =>
    if c = '\n' then collapseNLGo (n + 1) rest
    else collapseNLEmit n ++ c :: collapseNLGo 0 rest

/-- Collapse runs of three or more newlines to exactly two. -/
def collapseNL (l : List Char) : List Char := collapseNLGo 0 l

/-- Trim every line (`.split('\n').map(line => line.trim()).join('\n')`). -/
def trimLines (l : List Char) : List Char :=
  joinSep ['\n'] ((splitOnChar '\n' l).map trim)

/-- Embedding of `cleanPDFText` (src/lib/parsers/pdf.ts). -/
def cleanPDFText (t : List Char) : List Char :=
  trim (trimLines (collapseNL (collapseST t)))

/-- The result shape returned by the `pdf-parse` library. -/
structure PdfData where
  text : List Char
  numpages : Int
  title : Option (List Char) := none

/-- Embedding of `parsePDFServer` applied to the library's output. -/
def parsePDFServer (d : PdfData) : ParseResult :=
  if trim d.text = [] then
    { success := false, content := []
      error := some "No text content found in the PDF file".toList }
  else
    { success := true, content := cleanPDFText d.text
      metadata := some { pageCount := some d.numpages, title := d.title } }

/-- Embedding of the server-side route through `parsePDF`: `none` models a
`pdf-parse` throw, caught by the surrounding `try`. -/
def parsePDFFromData (d : Option PdfData) : ParseResult :=
  match d with
  | none =>
    { success := false, content := []
      error := some "Failed to parse PDF".toList }
  | some d => parsePDFServer d

/-- Embedding of `getFileExtension`
(`filename.split('.').pop()?.toLowerCase() || ''`). -/
def getFileExtension (name : List Char) : List Char :=
  (((splitOnChar '.' name).getLast?).getD []).map Char.toLower

/-- The `SUPPORTED_EXTENSIONS` constant. -/
def supportedExtensions : List (List Char) :=
  ["pptx".toList, "ppt".toList, "pdf".toList]

/-- Embedding of `isSupportedFile`. -/
def isSupportedFile (name : List Char) : Bool :=
  supportedExtensions.contains (getFileExtension name)

/-- A server upload: the filename together with what the byte payload would
yield to each strategy (`pptxArchive` for the archive load, `pdfData` for the
`pdf-parse` call); `parseFileBuffer` consults these only after dispatch. -/
structure UploadedFile where
  name : List Char
  pptxArchive : Option (List (List Char × List Char)) := none
  pdfData : Option PdfData := none

/-- Embedding of `parseFileBuffer` (src/lib/parsers/index.ts): the supported-
extension precondition check, then the extension switch. -/
def parseFileBuffer (f : UploadedFile) : ParseResult :=
  let ext := getFileExtension f.name
  if ¬ isSupportedFile f.name then
    { success := false, content := []
      error := some ("Unsupported file type: .".toList ++ ext) }
  else if ext = "pptx".toList ∨ ext = "ppt".toList then
    parsePPTXFromArchive f.pptxArchive
  else if ext = "pdf".toList then
    parsePDFFromData f.pdfData
  else
    { success := false, content := []
      error := some ("No parser available for .".toList ++ ext ++ " files".toList) }

/-- The ExtractionResult invariant of the specification: success implies the
content is non-empty after whitespace normalization, failure implies empty
content and a set error field. -/
def ResultInvariant (r : ParseResult) : Prop :=
  (r.success = true → trim r.content ≠ []) ∧
  (r.success = false → r.content = [] ∧ r.error.isSome = true)

/-- A slide archive whose entries carry the slide numbers 1, 2 and 10, listed
out of order (10 before 2, plus a non-slide entry), exercising numeric
versus lexicographic ordering. -/
def demoEntries : List (List Char × List Char) :=
  [("ppt/slides/slide10.xml".toList, "<a:t>Gamma</a:t>".toList),
   ("ppt/slides/slide1.xml".toList, "<a:t>Alpha</a:t>".toList),
   ("docProps/app.xml".toList, "<a:t>Ignored</a:t>".toList),
   ("ppt/slides/slide2.xml".toList, "<a:t>Beta</a:t>".toList)]

/-! ## Helper lemmas about the string primitives -/

theorem startsWith_append_self : ∀ (p r : List Char), startsWith p (p ++ r) = true
  | [], _ => rfl
  | c :: ps, r => by simp [startsWith, startsWith_append_self ps r]

theorem startsWith_head {p : List Char} {c : Char} {cs : List Char}
    (h : startsWith p (c :: cs) = true) : p = [] ∨ p.head? = some c := by
  cases p with
  | nil => exact Or.inl rfl
  | cons q qs =>
    refine Or.inr ?_
    simp only [startsWith, Bool.and_eq_true, beq_iff_eq] at h
    simp [h.1]

theorem startsWith_take_of_append :
    ∀ (x p r : List Char), startsWith p (x ++ r) = true →
      startsWith (p.take x.length) x = true
  | [], p, r, _ => rfl
  | _ :: _, [], _, _ => rfl
  | a :: xs, b :: ps, r, h => by
    simp only [List.cons_append, startsWith, Bool.and_eq_true, beq_iff_eq] at h
    simp only [List.length_cons, List.take_succ_cons, startsWith,
      Bool.and_eq_true, beq_iff_eq]
    exact ⟨h.1, startsWith_take_of_append xs ps r h.2⟩

theorem startsWith_false_of_head_ne {p : List Char} {c : Char} {cs : List Char}
    (hne : p ≠ []) (hh : p.head? ≠ some c) : startsWith p (c :: cs) = false := by
  cases hsw : startsWith p (c :: cs) with
  | false => rfl
  | true =>
    rcases startsWith_head hsw with h | h
    · exact absurd h hne
    · exact absurd h hh

theorem dropWhile_length_le (p : Char → Bool) :
    ∀ l : List Char, (l.dropWhile p).length ≤ l.length
  | [] => Nat.le_refl 0
  | a :: t => by
    rw [List.dropWhile_cons]
    by_cases hp : p a = true
    · rw [if_pos hp]
      exact Nat.le_succ_of_le (dropWhile_length_le p t)
    · rw [if_neg hp]

theorem dropWhile_append_eq_of_head_neg (p : Char → Bool) (A Y : List Char)
    (hA1 : A.dropWhile p = A) (hA2 : A ≠ []) :
    (A ++ Y).dropWhile p = A ++ Y := by
  cases A with
  | nil => exact absurd rfl hA2
  | cons a t =>
    rw [List.cons_append, List.dropWhile_cons]
    rw [List.dropWhile_cons] at hA1
    by_cases hp : p a = true
    · rw [if_pos hp] at hA1
      exfalso
      have hlen := congrArg List.length hA1
      have hle := dropWhile_length_le p t
      simp only [List.length_cons] at hlen
      omega
    · rw [if_neg hp]

theorem trim_concrete_wrap (A B X : List Char)
    (hA1 : A.dropWhile wsChar = A) (hA2 : A ≠ [])
    (hB1 : B.reverse.dropWhile wsChar = B.reverse) (hB2 : B ≠ []) :
    trim (A ++ X ++ B) = A ++ X ++ B := by
  unfold trim
  have h1 : (A ++ X ++ B).dropWhile wsChar = A ++ X ++ B := by
    rw [List.append_assoc]
    exact dropWhile_append_eq_of_head_neg wsChar A (X ++ B) hA1 hA2
  have h2 : (A ++ X ++ B).reverse.dropWhile wsChar = (A ++ X ++ B).reverse := by
    rw [List.reverse_append]
    refine dropWhile_append_eq_of_head_neg wsChar B.reverse ((A ++ X).reverse) hB1 ?_
    simpa using hB2
  rw [h1, h2, List.reverse_reverse]

theorem trim_eq_self_of_brackets {t t' : List Char}
    (hrev : ('[' :: t).reverse = ']' :: t') : trim ('[' :: t) = '[' :: t := by
  unfold trim
  rw [List.dropWhile_cons, if_neg (by decide), hrev, List.dropWhile_cons,
    if_neg (by decide), ← hrev, List.reverse_reverse]

theorem trim_nl_wrap {t t' : List Char}
    (hrev : ('[' :: t).reverse = ']' :: t') :
    trim (['\n'] ++ ('[' :: t) ++ ['\n']) = '[' :: t := by
  unfold trim
  have h1 : (['\n'] ++ ('[' :: t) ++ ['\n']).dropWhile wsChar =
      ('[' :: t) ++ ['\n'] := by
    rw [List.append_assoc, List.singleton_append, List.dropWhile_cons,
      if_pos (by decide), List.cons_append, List.dropWhile_cons, if_neg (by decide)]
  have h2 : (('[' :: t) ++ ['\n']).reverse = '\n' :: (']' :: t') := by
    rw [List.reverse_append, hrev]
    rfl
  rw [h1, h2, List.dropWhile_cons, if_pos (by decide), List.dropWhile_cons,
    if_neg (by decide), ← hrev, List.reverse_reverse]

theorem exists_cons_of_head {j : List Char} {c : Char} (h : j.head? = some c) :
    ∃ t, j = c :: t := by
  cases j with
  | nil => simp at h
  | cons a t =>
    simp only [List.head?_cons, Option.some.injEq] at h
    exact ⟨t, by rw [h]⟩

theorem exists_rev_cons_of_getLast {j : List Char} {c : Char}
    (h : j.getLast? = some c) : ∃ t', j.reverse = c :: t' := by
  rw [← List.head?_reverse] at h
  exact exists_cons_of_head h

/-- Text that is already a trimmed JSON array (starts with an open bracket,
ends with a close bracket) passes through the fence-stripping step
unchanged. -/
theorem cleanResponse_of_array_text {j : List Char}
    (h1 : j.head? = some '[') (h2 : j.getLast? = some ']') :
    cleanResponse j = j := by
  obtain ⟨t, rfl⟩ := exists_cons_of_head h1
  obtain ⟨t', hrev⟩ := exists_rev_cons_of_getLast h2
  have hTrim := trim_eq_self_of_brackets hrev
  have hA : startsWith "```json".toList ('[' :: t) = false :=
    startsWith_false_of_head_ne (by decide) (by decide)
  have hB : startsWith "```".toList ('[' :: t) = false :=
    startsWith_false_of_head_ne (by decide) (by decide)
  have hC : endsWith "```".toList ('[' :: t) = false := by
    unfold endsWith
    rw [hrev]
    exact startsWith_false_of_head_ne (by decide) (by decide)
  unfold cleanResponse
  simp only [hTrim, hA, hB, hC, Bool.false_eq_true, if_false]

/-- Stripping the language-tagged fence recovers the underlying JSON array
text. -/
theorem cleanResponse_wrapJson {j : List Char}
    (h1 : j.head? = some '[') (h2 : j.getLast? = some ']') :
    cleanResponse (wrapJsonFence j) = j := by
  obtain ⟨t, rfl⟩ := exists_cons_of_head h1
  obtain ⟨t', hrev⟩ := exists_rev_cons_of_getLast h2
  have hw : wrapJsonFence ('[' :: t) =
      "```json".toList ++ (['\n'] ++ ('[' :: t) ++ ['\n']) ++ "```".toList := by
    unfold wrapJsonFence
    rw [show "```json\n".toList = "```json".toList ++ ['\n'] from by decide,
      show "\n```".toList = ['\n'] ++ "```".toList from by decide]
    simp [List.append_assoc]
  have htrim : trim (wrapJsonFence ('[' :: t)) = wrapJsonFence ('[' :: t) := by
    rw [hw]
    exact trim_concrete_wrap _ _ _ (by decide) (by decide) (by decide) (by decide)
  have hsw : startsWith "```json".toList (wrapJsonFence ('[' :: t)) = true := by
    rw [hw, List.append_assoc]
    exact startsWith_append_self _ _
  have hdrop : (wrapJsonFence ('[' :: t)).drop 7 =
      (['\n'] ++ ('[' :: t) ++ ['\n']) ++ "```".toList := by
    rw [hw, List.append_assoc,
      show (7 : Nat) = ("```json".toList).length from by decide, List.drop_left]
  have hend : endsWith "```".toList
      ((['\n'] ++ ('[' :: t) ++ ['\n']) ++ "```".toList) = true := by
    unfold endsWith
    rw [List.reverse_append]
    exact startsWith_append_self _ _
  have hdr : dropRight ((['\n'] ++ ('[' :: t) ++ ['\n']) ++ "```".toList) 3 =
      ['\n'] ++ ('[' :: t) ++ ['\n'] := by
    unfold dropRight
    rw [List.reverse_append,
      show (3 : Nat) = (("```".toList).reverse).length from by decide,
      List.drop_left, List.reverse_reverse]
  unfold cleanResponse
  simp only [htrim, hsw, if_true, hdrop, hend, hdr]
  exact trim_nl_wrap hrev

/-- Stripping the bare fence recovers the underlying JSON array text. -/
theorem cleanResponse_wrapBare {j : List Char}
    (h1 : j.head? = some '[') (h2 : j.getLast? = some ']') :
    cleanResponse (wrapBareFence j) = j := by
  obtain ⟨t, rfl⟩ := exists_cons_of_head h1
  obtain ⟨t', hrev⟩ := exists_rev_cons_of_getLast h2
  have hw : wrapBareFence ('[' :: t) =
      "```".toList ++ (['\n'] ++ ('[' :: t) ++ ['\n']) ++ "```".toList := by
    unfold wrapBareFence
    rw [show "```\n".toList = "```".toList ++ ['\n'] from by decide,
      show "\n```".toList = ['\n'] ++ "```".toList from by decide]
    simp [List.append_assoc]
  have htrim : trim (wrapBareFence ('[' :: t)) = wrapBareFence ('[' :: t) := by
    rw [hw]
    exact trim_concrete_wrap _ _ _ (by decide) (by decide) (by decide) (by decide)
  have hnj : startsWith "```json".toList (wrapBareFence ('[' :: t)) = false := by
    cases hsw2 : startsWith "```json".toList (wrapBareFence ('[' :: t)) with
    | false => rfl
    | true =>
      exfalso
      have hsplit : wrapBareFence ('[' :: t) =
          "```\n".toList ++ (('[' :: t) ++ "\n```".toList) := by
        unfold wrapBareFence
        rw [List.append_assoc]
      rw [hsplit] at hsw2
      have h4 := startsWith_take_of_append _ _ _ hsw2
      revert h4
      decide
  have hsw : startsWith "```".toList (wrapBareFence ('[' :: t)) = true := by
    rw [hw, List.append_assoc]
    exact startsWith_append_self _ _
  have hdrop : (wrapBareFence ('[' :: t)).drop 3 =
      (['\n'] ++ ('[' :: t) ++ ['\n']) ++ "```".toList := by
    rw [hw, List.append_assoc,
      show (3 : Nat) = ("```".toList).length from by decide, List.drop_left]
  have hend : endsWith "```".toList
      ((['\n'] ++ ('[' :: t) ++ ['\n']) ++ "```".toList) = true := by
    unfold endsWith
    rw [List.reverse_append]
    exact startsWith_append_self _ _
  have hdr : dropRight ((['\n'] ++ ('[' :: t) ++ ['\n']) ++ "```".toList) 3 =
      ['\n'] ++ ('[' :: t) ++ ['\n'] := by
    unfold dropRight
    rw [List.reverse_append,
      show (3 : Nat) = (("```".toList).reverse).length from by decide,
      List.drop_left, List.reverse_reverse]
  unfold cleanResponse
  simp only [htrim, hnj, Bool.false_eq_true, if_false, hsw, if_true, hdrop, hend, hdr]
  exact trim_nl_wrap hrev

/-! ## Helper lemmas about element coercion -/

theorem coerceAll_length (tyKey : List Char) :
    ∀ (js : List Json) (i : Nat) (qs : List GeneratedQuestion),
      coerceAll tyKey i js = .ok qs → qs.length = js.length
  | [], i, qs, h => by
    simp only [coerceAll, Except.ok.injEq] at h
    subst h
    rfl
  | j :: js, i, qs, h => by
    cases hci : coerceItem tyKey i j with
    | error e => simp [coerceAll, hci] at h
    | ok q =>
      cases hca : coerceAll tyKey (i + 1) js with
      | error e => simp [coerceAll, hci, hca] at h
      | ok qs' =>
        simp only [coerceAll, hci, hca, Except.ok.injEq] at h
        subst h
        simp [coerceAll_length tyKey js (i + 1) qs' hca]

theorem coerceItem_obj_ok (tyKey : List Char) (i : Nat)
    (fs : List (List Char × Json)) :
    coerceItem tyKey i (Json.obj fs) =
      .ok
        { qtype := jsOrStr (jsGet fs "type".toList) tyKey
          question_text :=
            jsOrStr (jsGet fs "question_text".toList)
              ("Question ".toList ++ (Nat.repr (i + 1)).toList)
          correct_answer := jsOrStr (jsGet fs "correct_answer".toList) []
          options := jsOrUndef (jsGet fs "options".toList)
          explanation := jsOrUndef (jsGet fs "explanation".toList) } := rfl

theorem coerceAll_ok_of_objs (tyKey : List Char) :
    ∀ (js : List Json) (i : Nat), (∀ j ∈ js, ∃ fs, j = Json.obj fs) →
      ∃ qs, coerceAll tyKey i js = .ok qs
  | [], i, _ => ⟨[], rfl⟩
  | j :: js, i, h => by
    obtain ⟨fs, rfl⟩ := h j (List.mem_cons_self j js)
    obtain ⟨qs', hqs'⟩ :=
      coerceAll_ok_of_objs tyKey js (i + 1)
        (fun j' hj' => h j' (List.mem_cons_of_mem _ hj'))
    cases hci : coerceItem tyKey i (Json.obj fs) with
    | error e => simp [coerceItem] at hci
    | ok q0 => exact ⟨q0 :: qs', by simp only [coerceAll, hci, hqs']⟩

theorem coerceAll_getElem (tyKey : List Char) :
    ∀ (js : List Json) (i : Nat) (qs : List GeneratedQuestion),
      coerceAll tyKey i js = .ok qs →
      ∀ (k : Nat) (j : Json), js[k]? = some j →
        ∃ q, qs[k]? = some q ∧ coerceItem tyKey (i + k) j = .ok q
  | [], _, _, _, _, _, hk => by simp at hk
  | j0 :: js, i, qs, h, k, j, hk => by
    cases hci : coerceItem tyKey i j0 with
    | error e => simp [coerceAll, hci] at h
    | ok q0 =>
      cases hca : coerceAll tyKey (i + 1) js with
      | error e => simp [coerceAll, hci, hca] at h
      | ok qs' =>
        simp only [coerceAll, hci, hca, Except.ok.injEq] at h
        subst h
        cases k with
        | zero =>
          simp only [List.getElem?_cons_zero, Option.some.injEq] at hk
          subst hk
          exact ⟨q0, by simp, by simpa using hci⟩
        | succ k' =>
          simp only [List.getElem?_cons_succ] at hk
          obtain ⟨q, hq1, hq2⟩ := coerceAll_getElem tyKey js (i + 1) qs' hca k' j hk
          refine ⟨q, by simpa using hq1, ?_⟩
          have : i + (k' + 1) = i + 1 + k' := by omega
          rw [this]
          exact hq2

theorem coerceAll_getElem_rev (tyKey : List Char) :
    ∀ (js : List Json) (i : Nat) (qs : List GeneratedQuestion),
      coerceAll tyKey i js = .ok qs →
      ∀ (k : Nat) (q : GeneratedQuestion), qs[k]? = some q →
        ∃ j, js[k]? = some j ∧ coerceItem tyKey (i + k) j = .ok q
  | [], _, qs, h, k, q, hk => by
    simp only [coerceAll, Except.ok.injEq] at h
    subst h
    simp at hk
  | j0 :: js, i, qs, h, k, q, hk => by
    cases hci : coerceItem tyKey i j0 with
    | error e => simp [coerceAll, hci] at h
    | ok q0 =>
      cases hca : coerceAll tyKey (i + 1) js with
      | error e => simp [coerceAll, hci, hca] at h
      | ok qs' =>
        simp only [coerceAll, hci, hca, Except.ok.injEq] at h
        subst h
        cases k with
        | zero =>
          simp only [List.getElem?_cons_zero, Option.some.injEq] at hk
          subst hk
          exact ⟨j0, by simp, by simpa using hci⟩
        | succ k' =>
          simp only [List.getElem?_cons_succ] at hk
          obtain ⟨j, hj1, hj2⟩ := coerceAll_getElem_rev tyKey js (i + 1) qs' hca k' q hk
          refine ⟨j, by simpa using hj1, ?_⟩
          have : i + (k' + 1) = i + 1 + k' := by omega
          rw [this]
          exact hj2

/-! ## Helper lemmas about whitespace normalization -/

theorem mem_dropWhile_of_neg (p : Char → Bool) {c : Char} :
    ∀ {l : List Char}, c ∈ l → p c = false → c ∈ l.dropWhile p
  | a :: t, hm, hc => by
    rw [List.dropWhile_cons]
    by_cases hp : p a = true
    · rw [if_pos hp]
      rcases List.mem_cons.mp hm with rfl | hmt
      · rw [hp] at hc; cases hc
      · exact mem_dropWhile_of_neg p hmt hc
    · rw [if_neg hp]
      exact hm

theorem mem_trim {c : Char} {l : List Char} (hm : c ∈ l)
    (hc : wsChar c = false) : c ∈ trim l := by
  unfold trim
  rw [List.mem_reverse]
  refine mem_dropWhile_of_neg wsChar ?_ hc
  rw [List.mem_reverse]
  exact mem_dropWhile_of_neg wsChar hm hc

theorem trim_ne_nil_of_mem {c : Char} {l : List Char} (hm : c ∈ l)
    (hc : wsChar c = false) : trim l ≠ [] := by
  intro h
  have := mem_trim hm hc
  rw [h] at this
  exact List.not_mem_nil c this

theorem exists_nonws_of_trim_ne_nil {l : List Char} (h : trim l ≠ []) :
    ∃ c ∈ l, wsChar c = false := by
  by_contra hc
  push_neg at hc
  simp only [Bool.not_eq_false] at hc
  apply h
  unfold trim
  rw [List.dropWhile_eq_nil_iff.mpr hc]
  rfl

theorem mem_collapseST {c : Char} (hc : wsChar c = false) :
    ∀ {l : List Char}, c ∈ l → c ∈ collapseST l
  | [a], hm => by
    rcases List.mem_singleton.mp hm with rfl
    have hp : ¬ (c = ' ' ∨ c = '\t') := by
      rintro (rfl | rfl) <;> simp [wsChar] at hc
    simp only [collapseST, if_neg hp]
    exact List.mem_singleton_self c
  | a :: b :: r, hm => by
    simp only [collapseST]
    rcases List.mem_cons.mp hm with rfl | hmt
    · have hp : ¬ (c = ' ' ∨ c = '\t') := by
        rintro (rfl | rfl) <;> simp [wsChar] at hc
      rw [if_neg hp]
      exact List.mem_cons_self _ _
    · by_cases hp : a = ' ' ∨ a = '\t'
      · rw [if_pos hp]
        by_cases hq : b = ' ' ∨ b = '\t'
        · rw [if_pos hq]
          exact mem_collapseST hc hmt
        · rw [if_neg hq]
          exact List.mem_cons_of_mem _ (mem_collapseST hc hmt)
      · rw [if_neg hp]
        exact List.mem_cons_of_mem _ (mem_collapseST hc hmt)

theorem mem_collapseNLGo {c : Char} (hc : wsChar c = false) :
    ∀ {l : List Char} (n : Nat), c ∈ l → c ∈ collapseNLGo n l
  | a :: r, n, hm => by
    unfold collapseNLGo
    rcases List.mem_cons.mp hm with rfl | hmt
    · have hp : ¬ c = '\n' := by
        intro h
        rw [h] at hc
        simp [wsChar] at hc
      rw [if_neg hp]
      exact List.mem_append_right _ (List.mem_cons_self _ _)
    · by_cases hp : a = '\n'
      · rw [if_pos hp]
        exact mem_collapseNLGo hc (n + 1) hmt
      · rw [if_neg hp]
        exact List.mem_append_right _
          (List.mem_cons_of_mem _ (mem_collapseNLGo hc 0 hmt))

theorem splitOnChar_ne_nil (sep : Char) : ∀ (l : List Char), splitOnChar sep l ≠ []
  | [] => by simp [splitOnChar]
  | c :: rest => by
    cases h : splitOnChar sep rest with
    | nil => exact absurd h (splitOnChar_ne_nil sep rest)
    | cons g gs =>
      simp only [splitOnChar, h]
      by_cases hc : c = sep
      · rw [if_pos hc]; simp
      · rw [if_neg hc]; simp

theorem mem_splitOnChar {sep c : Char} (hne : c ≠ sep) :
    ∀ {l : List Char}, c ∈ l → ∃ g ∈ splitOnChar sep l, c ∈ g
  | a :: rest, hm => by
    cases h : splitOnChar sep rest with
    | nil => exact absurd h (splitOnChar_ne_nil sep rest)
    | cons g0 gs =>
      simp only [splitOnChar, h]
      rcases List.mem_cons.mp hm with rfl | hmt
      · rw [if_neg hne]
        exact ⟨c :: g0, List.mem_cons_self _ _, List.mem_cons_self _ _⟩
      · obtain ⟨g, hg1, hg2⟩ := mem_splitOnChar hne hmt
        rw [h] at hg1
        by_cases hc : a = sep
        · rw [if_pos hc]
          exact ⟨g, List.mem_cons_of_mem _ hg1, hg2⟩
        · rw [if_neg hc]
          rcases List.mem_cons.mp hg1 with rfl | hg1t
          · exact ⟨a :: g, List.mem_cons_self _ _, List.mem_cons_of_mem _ hg2⟩
          · exact ⟨g, List.mem_cons_of_mem _ hg1t, hg2⟩

theorem mem_joinSep {c : Char} {sep : List Char} :
    ∀ {gs : List (List Char)} {g : List Char}, g ∈ gs → c ∈ g → c ∈ joinSep sep gs
  | [g0], g, hg, hc => by
    rcases List.mem_singleton.mp hg with rfl
    exact hc
  | g0 :: g1 :: gs, g, hg, hc => by
    unfold joinSep
    rcases List.mem_cons.mp hg with rfl | hgt
    · exact List.mem_append_left _ (List.mem_append_left _ hc)
    · exact List.mem_append_right _ (mem_joinSep hgt hc)

theorem mem_trimLines {c : Char} {l : List Char} (hm : c ∈ l)
    (hc : wsChar c = false) : c ∈ trimLines l := by
  have hne : c ≠ '\n' := by
    intro h
    rw [h] at hc
    simp [wsChar] at hc
  obtain ⟨g, hg1, hg2⟩ := mem_splitOnChar hne hm
  exact mem_joinSep (List.mem_map_of_mem trim hg1) (mem_trim hg2 hc)

/-- The key normalization fact for the PDF strategy: if the input has any
non-whitespace character, the cleaned text is non-empty after trimming. -/
theorem cleanPDFText_trim_ne_nil {t : List Char} (h : trim t ≠ []) :
    trim (cleanPDFText t) ≠ [] := by
  obtain ⟨c, hm, hc⟩ := exists_nonws_of_trim_ne_nil h
  have h1 : c ∈ collapseST t := mem_collapseST hc hm
  have h2 : c ∈ collapseNL (collapseST t) := mem_collapseNLGo hc 0 h1
  have h3 : c ∈ trimLines (collapseNL (collapseST t)) := mem_trimLines h2 hc
  have h4 : c ∈ cleanPDFText t := mem_trim h3 hc
  exact trim_ne_nil_of_mem h4 hc

/-! ## Helper lemmas about the extractor -/

theorem slideBlock_shape {entries : List (List Char × List Char)} {p b : List Char}
    (h : slideBlock entries p = some b) : ∃ rest, b = "[Slide ".toList ++ rest := by
  cases hl : lookupEntry entries p with
  | none => simp [slideBlock, hl] at h
  | some xml =>
    simp only [slideBlock, hl] at h
    by_cases hx : xml = []
    · rw [if_pos hx] at h; simp at h
    · rw [if_neg hx] at h
      by_cases ht : trim (extractTextFromSlideXml xml) = []
      · rw [if_pos ht] at h; simp at h
      · rw [if_neg ht] at h
        refine ⟨slideNumStr p ++ "]\n".toList ++ extractTextFromSlideXml xml, ?_⟩
        rw [← Option.some.inj h]
        simp [List.append_assoc]

theorem trim_joinSep_block_cons_ne_nil {rest : List Char} {bs : List (List Char)} :
    trim (joinSep "\n\n".toList (("[Slide ".toList ++ rest) :: bs)) ≠ [] := by
  have hbr : '[' ∈ "[Slide ".toList ++ rest :=
    List.mem_append_left _ (by decide)
  have hmem : '[' ∈ joinSep "\n\n".toList (("[Slide ".toList ++ rest) :: bs) :=
    mem_joinSep (List.mem_cons_self _ _) hbr
  exact trim_ne_nil_of_mem hmem (by decide)

/-- The extracted PPTX content is always exactly the blank-line join of the
per-slide blocks taken in sorted order (on failure both sides are empty). -/
theorem parsePPTX_content (entries : List (List Char × List Char)) :
    (parsePPTXFromEntries entries).content =
      joinSep "\n\n".toList ((sortedSlidePaths entries).filterMap (slideBlock entries)) := by
  simp only [parsePPTXFromEntries]
  cases hbs : (sortedSlidePaths entries).filterMap (slideBlock entries) with
  | nil => rfl
  | cons b bs =>
    have hbmem : b ∈ (sortedSlidePaths entries).filterMap (slideBlock entries) := by
      rw [hbs]
      exact List.mem_cons_self _ _
    obtain ⟨p, _, hpb⟩ := List.mem_filterMap.mp hbmem
    obtain ⟨rest, rfl⟩ := slideBlock_shape hpb
    rw [if_neg trim_joinSep_block_cons_ne_nil]

theorem invariant_pptx_entries (entries : List (List Char × List Char)) :
    ResultInvariant (parsePPTXFromEntries entries) := by
  unfold ResultInvariant parsePPTXFromEntries
  by_cases hg : trim (joinSep "\n\n".toList
      ((sortedSlidePaths entries).filterMap (slideBlock entries))) = []
  · rw [if_pos hg]
    simp
  · rw [if_neg hg]
    exact ⟨fun _ => hg, fun h => by simp at h⟩

theorem invariant_pptx_archive (a : Option (List (List Char × List Char))) :
    ResultInvariant (parsePPTXFromArchive a) := by
  cases a with
  | none => exact ⟨fun h => by simp [parsePPTXFromArchive] at h, fun _ => ⟨rfl, rfl⟩⟩
  | some entries => exact invariant_pptx_entries entries

theorem invariant_pdf_server (d : PdfData) : ResultInvariant (parsePDFServer d) := by
  unfold ResultInvariant parsePDFServer
  by_cases hg : trim d.text = []
  · rw [if_pos hg]
    simp
  · rw [if_neg hg]
    exact ⟨fun _ => cleanPDFText_trim_ne_nil hg, fun h => by simp at h⟩

theorem invariant_pdf_data (d : Option PdfData) :
    ResultInvariant (parsePDFFromData d) := by
  cases d with
  | none => exact ⟨fun h => by simp [parsePDFFromData] at h, fun _ => ⟨rfl, rfl⟩⟩
  | some d => exact invariant_pdf_server d

theorem invariant_parseFileBuffer (f : UploadedFile) :
    ResultInvariant (parseFileBuffer f) := by
  simp only [parseFileBuffer]
  split_ifs with h1 h2 h3
  · exact invariant_pptx_archive f.pptxArchive
  · exact invariant_pdf_data f.pdfData
  · exact ⟨fun h => by simp at h, fun _ => ⟨rfl, rfl⟩⟩
  · exact ⟨fun h => by simp at h, fun _ => ⟨rfl, rfl⟩⟩

theorem coerceResult_toOption (r1 r2 : List Char)
    (e : Except Unit (List GeneratedQuestion)) :
    (coerceResult r1 e).toOption = (coerceResult r2 e).toOption := by
  cases e <;> rfl

theorem key_concrete_of_ne_mixed {ty : QuestionType} (h : ty ≠ QuestionType.mixed) :
    IsConcreteType (Json.str ty.key) := by
  cases ty with
  | multiple_choice => exact ⟨"multiple_choice".toList, by decide, rfl⟩
  | identification => exact ⟨"identification".toList, by decide, rfl⟩
  | true_false => exact ⟨"true_false".toList, by decide, rfl⟩
  | mixed => exact absurd rfl h

theorem concrete_key_truthy {s : List Char} (h : s ∈ concreteTypeKeys) :
    truthy (Json.str s) = true := by
  simp only [concreteTypeKeys, List.mem_cons, List.not_mem_nil, or_false] at h
  rcases h with rfl | rfl | rfl <;> decide

/-! ## Claims -/

/-- C1 (amended): the synthesizer returns exactly one `GeneratedQuestion` per
element of the parsed response array, independently of the requested count:
a response with k < n well-formed objects yields exactly k questions (no
padding), but the claimed upper bound `length ≤ count` is not enforced — the
synthesizer does not truncate either. -/
theorem c1_synthesizer_length (ty : QuestionType) (count : Nat) (t : List Char)
    (items : List Json)
    (hparse : jsonParse (cleanResponse t) = some (Json.arr items))
    (hobj : ∀ j ∈ items, ∃ fs, j = Json.obj fs) :
    ∃ qs, generateQuestionsFromResponse ty count t = .ok qs ∧
      qs.length = items.length := by
  obtain ⟨qs, hqs⟩ := coerceAll_ok_of_objs ty.key items 0 hobj
  refine ⟨qs, ?_, coerceAll_length ty.key items 0 qs hqs⟩
  simp only [generateQuestionsFromResponse, parseQuestionsFromResponse, hparse, hqs,
    coerceResult]

/-- Witness for C1: a request for 5 multiple-choice questions against a
response holding only 3 objects yields exactly 3 questions. -/
theorem c1_synthesizer_length_witness :
    jsonParse (cleanResponse "[\x7b\x7d,\x7b\x7d,\x7b\x7d]".toList) =
      some (Json.arr [Json.obj [], Json.obj [], Json.obj []]) ∧
    (∀ j ∈ [Json.obj [], Json.obj [], Json.obj []], ∃ fs, j = Json.obj fs) ∧
    ∃ qs, generateQuestionsFromResponse QuestionType.multiple_choice 5
        "[\x7b\x7d,\x7b\x7d,\x7b\x7d]".toList = .ok qs ∧ qs.length = 3 := by
  have hobj : ∀ j ∈ [Json.obj [], Json.obj [], Json.obj []],
      ∃ fs, j = Json.obj fs := by
    intro j hj
    simp only [List.mem_cons, List.not_mem_nil, or_false] at hj
    rcases hj with rfl | rfl | rfl
    all_goals exact ⟨[], rfl⟩
  exact ⟨rfl, hobj,
    c1_synthesizer_length QuestionType.multiple_choice 5
      "[\x7b\x7d,\x7b\x7d,\x7b\x7d]".toList
      [Json.obj [], Json.obj [], Json.obj []] rfl hobj⟩

/-- C1 counterexample: with requested count 1, a response containing two
objects produces two questions, so the returned length is not bounded by the
requested count. -/
theorem c1_counterexample :
    (generateQuestionsFromResponse QuestionType.multiple_choice 1
        "[\x7b\x7d,\x7b\x7d]".toList).map List.length = Except.ok 2 ∧
    ¬ (2 ≤ 1) := ⟨rfl, by decide⟩

/-- C2: in both provider implementations the mixed-mode sub-counts sum to
exactly the requested count for every integer count (the true/false count is
defined as the remainder), and the split is a deterministic function of the
count alone. -/
theorem c2_mixed_split (count m : Int) (h : m = count) :
    groqMcCount count + groqIdCount count + groqTfCount count = count ∧
    geminiMcCount count + geminiIdCount count + geminiTfCount count = count ∧
    (groqMcCount m, groqIdCount m, groqTfCount m) =
      (groqMcCount count, groqIdCount count, groqTfCount count) ∧
    (geminiMcCount m, geminiIdCount m, geminiTfCount m) =
      (geminiMcCount count, geminiIdCount count, geminiTfCount count) := by
  subst h
  refine ⟨?_, ?_, rfl, rfl⟩
  · simp only [groqTfCount]
    ring
  · simp only [geminiTfCount]
    ring

/-- Witness for C2 at the specification's example count 10. -/
theorem c2_mixed_split_witness :
    (10 : Int) = 10 ∧
    (groqMcCount 10 + groqIdCount 10 + groqTfCount 10 = 10 ∧
      geminiMcCount 10 + geminiIdCount 10 + geminiTfCount 10 = 10 ∧
      (groqMcCount 10, groqIdCount 10, groqTfCount 10) =
        (groqMcCount 10, groqIdCount 10, groqTfCount 10) ∧
      (geminiMcCount 10, geminiIdCount 10, geminiTfCount 10) =
        (geminiMcCount 10, geminiIdCount 10, geminiTfCount 10)) :=
  ⟨rfl, c2_mixed_split 10 10 rfl⟩

/-- C3: for JSON array text, the parsed question list is identical whether
the model response is the bare text, the text in a ```` ```json ````-tagged
fence, or the text in a bare ```` ``` ```` fence. -/
theorem c3_fence_agreement (j : List Char) (ty : QuestionType)
    (h1 : j.head? = some '[') (h2 : j.getLast? = some ']') :
    (parseQuestionsFromResponse (wrapJsonFence j) ty).toOption =
      (parseQuestionsFromResponse j ty).toOption ∧
    (parseQuestionsFromResponse (wrapBareFence j) ty).toOption =
      (parseQuestionsFromResponse j ty).toOption := by
  have e0 := cleanResponse_of_array_text h1 h2
  have e1 := cleanResponse_wrapJson h1 h2
  have e2 := cleanResponse_wrapBare h1 h2
  constructor <;>
  · simp only [parseQuestionsFromResponse, e0, e1, e2]
    cases hjp : jsonParse j with
    | none => rfl
    | some v =>
      cases v with
      | null => rfl
      | bool b => rfl
      | num lex => rfl
      | str s => rfl
      | obj fs => rfl
      | arr items => exact coerceResult_toOption _ _ (coerceAll ty.key 0 items)

/-- Witness for C3 on the empty JSON array. -/
theorem c3_fence_agreement_witness :
    ("[]".toList.head? = some '[') ∧ ("[]".toList.getLast? = some ']') ∧
    ((parseQuestionsFromResponse (wrapJsonFence "[]".toList)
          QuestionType.multiple_choice).toOption =
        (parseQuestionsFromResponse "[]".toList
          QuestionType.multiple_choice).toOption ∧
      (parseQuestionsFromResponse (wrapBareFence "[]".toList)
          QuestionType.multiple_choice).toOption =
        (parseQuestionsFromResponse "[]".toList
          QuestionType.multiple_choice).toOption) :=
  ⟨rfl, rfl, c3_fence_agreement "[]".toList QuestionType.multiple_choice rfl rfl⟩

/-- C4: when the fence-stripped response does not parse as a JSON array, the
whole call fails with the malformed-response error, zero questions are
produced, and the error value preserves the original raw response text. -/
theorem c4_malformed_response (t : List Char) (ty : QuestionType)
    (h : ∀ items, jsonParse (cleanResponse t) ≠ some (Json.arr items)) :
    parseQuestionsFromResponse t ty =
      .error ⟨parseFailureMessage, t⟩ := by
  cases hjp : jsonParse (cleanResponse t) with
  | none => simp only [parseQuestionsFromResponse, hjp]
  | some v =>
    cases v with
    | null => simp only [parseQuestionsFromResponse, hjp]
    | bool b => simp only [parseQuestionsFromResponse, hjp]
    | num lex => simp only [parseQuestionsFromResponse, hjp]
    | str s => simp only [parseQuestionsFromResponse, hjp]
    | obj fs => simp only [parseQuestionsFromResponse, hjp]
    | arr items => exact absurd hjp (h items)

/-- Witness for C4: plain prose with no JSON array fails with the raw text
preserved. -/
theorem c4_malformed_response_witness :
    (∀ items, jsonParse (cleanResponse "Sorry, I cannot produce JSON.".toList) ≠
        some (Json.arr items)) ∧
    parseQuestionsFromResponse "Sorry, I cannot produce JSON.".toList
        QuestionType.mixed =
      .error ⟨parseFailureMessage, "Sorry, I cannot produce JSON.".toList⟩ := by
  have h : ∀ items,
      jsonParse (cleanResponse "Sorry, I cannot produce JSON.".toList) ≠
        some (Json.arr items) := by
    intro items hbad
    rw [show jsonParse (cleanResponse "Sorry, I cannot produce JSON.".toList) =
        none from rfl] at hbad
    exact Option.noConfusion hbad
  exact ⟨h, c4_malformed_response _ _ h⟩

/-- C5: a parsed element at 1-based position n that is missing
`question_text` receives the placeholder `Question n`, and its presence
never rejects the batch — every element is still returned. -/
theorem c5_placeholder (t : List Char) (ty : QuestionType) (items : List Json)
    (k : Nat) (fs : List (List Char × Json))
    (hparse : jsonParse (cleanResponse t) = some (Json.arr items))
    (hobj : ∀ j ∈ items, ∃ fs2, j = Json.obj fs2)
    (hk : items[k]? = some (Json.obj fs))
    (hmiss : jsGet fs "question_text".toList = none) :
    ∃ qs, parseQuestionsFromResponse t ty = .ok qs ∧ qs.length = items.length ∧
      ∃ q, qs[k]? = some q ∧
        q.question_text =
          Json.str ("Question ".toList ++ (Nat.repr (k + 1)).toList) := by
  obtain ⟨qs, hqs⟩ := coerceAll_ok_of_objs ty.key items 0 hobj
  obtain ⟨q, hq1, hq2⟩ := coerceAll_getElem ty.key items 0 qs hqs k _ hk
  refine ⟨qs, ?_, coerceAll_length ty.key items 0 qs hqs, q, hq1, ?_⟩
  · simp only [parseQuestionsFromResponse, hparse, hqs, coerceResult]
  · rw [coerceItem_obj_ok] at hq2
    simp only [Except.ok.injEq] at hq2
    rw [← hq2]
    show jsOrStr (jsGet fs "question_text".toList)
        ("Question ".toList ++ (Nat.repr (0 + k + 1)).toList) =
      Json.str ("Question ".toList ++ (Nat.repr (k + 1)).toList)
    rw [Nat.zero_add]
    simp only [jsOrStr, hmiss]

/-- Witness for C5: the second array element lacks `question_text` and gets
the placeholder `Question 2`, while both elements are returned. -/
theorem c5_placeholder_witness :
    jsonParse (cleanResponse
        "[\x7b\"question_text\":\"What is OT?\"\x7d,\x7b\"a\":1\x7d]".toList) =
      some (Json.arr
        [Json.obj [("question_text".toList, Json.str "What is OT?".toList)],
         Json.obj [("a".toList, Json.num ['1'])]]) ∧
    jsGet [("a".toList, Json.num ['1'])] "question_text".toList = none ∧
    ∃ qs, parseQuestionsFromResponse
        "[\x7b\"question_text\":\"What is OT?\"\x7d,\x7b\"a\":1\x7d]".toList
        QuestionType.identification = .ok qs ∧
      qs.length = 2 ∧
      ∃ q, qs[1]? = some q ∧
        q.question_text =
          Json.str ("Question ".toList ++ (Nat.repr 2).toList) := by
  have hobj : ∀ j ∈
      [Json.obj [("question_text".toList, Json.str "What is OT?".toList)],
       Json.obj [("a".toList, Json.num ['1'])]], ∃ fs2, j = Json.obj fs2 := by
    intro j hj
    simp only [List.mem_cons, List.not_mem_nil, or_false] at hj
    rcases hj with rfl | rfl
    · exact ⟨_, rfl⟩
    · exact ⟨_, rfl⟩
  exact ⟨rfl, rfl,
    c5_placeholder
      "[\x7b\"question_text\":\"What is OT?\"\x7d,\x7b\"a\":1\x7d]".toList
      QuestionType.identification
      [Json.obj [("question_text".toList, Json.str "What is OT?".toList)],
       Json.obj [("a".toList, Json.num ['1'])]]
      1 [("a".toList, Json.num ['1'])] rfl hobj rfl rfl⟩

/-- C6 (amended): `question_text` is always a non-empty string after
synthesis (a position-indexed placeholder is substituted when it is missing
or falsy, provided present values are strings), but `correct_answer` is
defaulted to the empty string when missing, so it is not always
non-empty. -/
theorem c6_question_text_nonempty (t : List Char) (ty : QuestionType)
    (items : List Json) (qs : List GeneratedQuestion)
    (hparse : jsonParse (cleanResponse t) = some (Json.arr items))
    (hfields : ∀ j ∈ items, ∃ fs, j = Json.obj fs ∧
      ∀ v, jsGet fs "question_text".toList = some v →
        (∃ s, v = Json.str s) ∨ truthy v = false)
    (hok : parseQuestionsFromResponse t ty = .ok qs) :
    ∀ q ∈ qs, NonEmptyStringJson q.question_text := by
  have hca : coerceAll ty.key 0 items = .ok qs := by
    simp only [parseQuestionsFromResponse, hparse] at hok
    cases hca : coerceAll ty.key 0 items with
    | error e =>
      rw [hca] at hok
      simp [coerceResult] at hok
    | ok qs' =>
      rw [hca] at hok
      simp only [coerceResult, Except.ok.injEq] at hok
      rw [hok]
  intro q hq
  obtain ⟨k, hk⟩ := List.mem_iff_getElem?.mp hq
  obtain ⟨j, hj1, hj2⟩ := coerceAll_getElem_rev ty.key items 0 qs hca k q hk
  have hjmem : j ∈ items := List.mem_iff_getElem?.mpr ⟨k, hj1⟩
  obtain ⟨fs, rfl, hv⟩ := hfields j hjmem
  rw [coerceItem_obj_ok] at hj2
  simp only [Except.ok.injEq] at hj2
  rw [← hj2]
  show NonEmptyStringJson (jsOrStr (jsGet fs "question_text".toList)
    ("Question ".toList ++ (Nat.repr (0 + k + 1)).toList))
  cases hg : jsGet fs "question_text".toList with
  | none =>
    refine ⟨"Question ".toList ++ (Nat.repr (0 + k + 1)).toList, ?_, by simp⟩
    simp only [jsOrStr, hg]
  | some v =>
    rcases hv v hg with ⟨s, rfl⟩ | hfalse
    · by_cases ht : truthy (Json.str s) = true
      · refine ⟨s, ?_, ?_⟩
        · simp only [jsOrStr, hg]
          rw [if_pos ht]
        · intro hnil
          rw [hnil] at ht
          exact absurd ht (by decide)
      · refine ⟨"Question ".toList ++ (Nat.repr (0 + k + 1)).toList, ?_, by simp⟩
        simp only [jsOrStr, hg]
        rw [if_neg ht]
    · refine ⟨"Question ".toList ++ (Nat.repr (0 + k + 1)).toList, ?_, by simp⟩
      simp only [jsOrStr, hg]
      rw [if_neg (by simp [hfalse])]

/-- Witness for C6 (amended claim). -/
theorem c6_question_text_nonempty_witness :
    jsonParse (cleanResponse "[\x7b\x7d]".toList) =
      some (Json.arr [Json.obj []]) ∧
    parseQuestionsFromResponse "[\x7b\x7d]".toList QuestionType.multiple_choice =
      .ok [{ qtype := Json.str "multiple_choice".toList
             question_text := Json.str "Question 1".toList
             correct_answer := Json.str []
             options := none
             explanation := none }] ∧
    ∀ q ∈ [({ qtype := Json.str "multiple_choice".toList
              question_text := Json.str "Question 1".toList
              correct_answer := Json.str []
              options := none
              explanation := none } : GeneratedQuestion)],
      NonEmptyStringJson q.question_text := by
  have hfields : ∀ j ∈ [Json.obj ([] : List (List Char × Json))],
      ∃ fs, j = Json.obj fs ∧
        ∀ v, jsGet fs "question_text".toList = some v →
          (∃ s, v = Json.str s) ∨ truthy v = false := by
    intro j hj
    simp only [List.mem_cons, List.not_mem_nil, or_false] at hj
    subst hj
    refine ⟨[], rfl, ?_⟩
    intro v hv
    simp [jsGet] at hv
  exact ⟨rfl, rfl,
    c6_question_text_nonempty "[\x7b\x7d]".toList QuestionType.multiple_choice
      [Json.obj []] _ rfl hfields rfl⟩

/-- C6 counterexample: an element missing `correct_answer` yields a question
whose `correct_answer` is the empty string, so `correct_answer` is not
always non-empty. -/
theorem c6_counterexample :
    ∃ qs, parseQuestionsFromResponse "[\x7b\x7d]".toList
        QuestionType.identification = .ok qs ∧
      ∃ q ∈ qs, ¬ NonEmptyStringJson q.correct_answer := by
  refine ⟨_, rfl, ?_⟩
  refine ⟨{ qtype := Json.str "identification".toList
            question_text := Json.str "Question 1".toList
            correct_answer := Json.str []
            options := none
            explanation := none }, ?_, ?_⟩
  · exact List.mem_singleton_self _
  · rintro ⟨s, hs, hne⟩
    simp only [Json.str.injEq] at hs
    exact hne hs.symm

/-- C7: an element missing its `type` field is assigned the input selector's
type string, and when every element's type field is a concrete type string
where required (always so for selector `mixed`, which has no per-question
default), every returned question carries one of the three concrete
types. -/
theorem c7_type_defaulting (t : List Char) (ty : QuestionType)
    (items : List Json)
    (hparse : jsonParse (cleanResponse t) = some (Json.arr items))
    (hty : ∀ j ∈ items, ∃ fs, j = Json.obj fs ∧ TypeFieldOk ty fs) :
    ∃ qs, parseQuestionsFromResponse t ty = .ok qs ∧
      (∀ q ∈ qs, IsConcreteType q.qtype) ∧
      (∀ (k : Nat) (fs : List (List Char × Json)),
        items[k]? = some (Json.obj fs) → jsGet fs "type".toList = none →
        ∃ q, qs[k]? = some q ∧ q.qtype = Json.str ty.key) := by
  have hobj : ∀ j ∈ items, ∃ fs, j = Json.obj fs :=
    fun j hj => (hty j hj).imp (fun _ h => h.1)
  obtain ⟨qs, hqs⟩ := coerceAll_ok_of_objs ty.key items 0 hobj
  refine ⟨qs, ?_, ?_, ?_⟩
  · simp only [parseQuestionsFromResponse, hparse, hqs, coerceResult]
  · intro q hq
    obtain ⟨k, hk⟩ := List.mem_iff_getElem?.mp hq
    obtain ⟨j, hj1, hj2⟩ := coerceAll_getElem_rev ty.key items 0 qs hqs k q hk
    have hjmem : j ∈ items := List.mem_iff_getElem?.mpr ⟨k, hj1⟩
    obtain ⟨fs, rfl, hok⟩ := hty j hjmem
    rw [coerceItem_obj_ok] at hj2
    simp only [Except.ok.injEq] at hj2
    rw [← hj2]
    show IsConcreteType (jsOrStr (jsGet fs "type".toList) ty.key)
    unfold TypeFieldOk at hok
    cases hg : jsGet fs "type".toList with
    | none =>
      rw [hg] at hok
      have hok' : ty ≠ QuestionType.mixed := hok
      exact key_concrete_of_ne_mixed hok'
    | some v =>
      rw [hg] at hok
      have hok' : (∃ s ∈ concreteTypeKeys, v = Json.str s) ∨
          (truthy v = false ∧ ty ≠ QuestionType.mixed) := hok
      rcases hok' with ⟨s, hsmem, rfl⟩ | ⟨hfalse, hne⟩
      · rw [show jsOrStr (some (Json.str s)) ty.key = Json.str s from by
          simp only [jsOrStr]
          rw [if_pos (concrete_key_truthy hsmem)]]
        exact ⟨s, hsmem, rfl⟩
      · rw [show jsOrStr (some v) ty.key = Json.str ty.key from by
          simp only [jsOrStr]
          rw [if_neg (by simp [hfalse])]]
        exact key_concrete_of_ne_mixed hne
  · intro k fs hk hg
    obtain ⟨q, hq1, hq2⟩ := coerceAll_getElem ty.key items 0 qs hqs k _ hk
    rw [coerceItem_obj_ok] at hq2
    simp only [Except.ok.injEq] at hq2
    refine ⟨q, hq1, ?_⟩
    rw [← hq2]
    show jsOrStr (jsGet fs "type".toList) ty.key = Json.str ty.key
    simp only [jsOrStr, hg]

/-- Witness for C7: selector `mixed` with a payload-supplied concrete type,
plus a concrete selector with a missing type field. -/
theorem c7_type_defaulting_witness :
    jsonParse (cleanResponse "[\x7b\"type\":\"true_false\"\x7d]".toList) =
      some (Json.arr [Json.obj [("type".toList, Json.str "true_false".toList)]]) ∧
    ∃ qs, parseQuestionsFromResponse "[\x7b\"type\":\"true_false\"\x7d]".toList
        QuestionType.mixed = .ok qs ∧
      (∀ q ∈ qs, IsConcreteType q.qtype) ∧
      (∀ (k : Nat) (fs : List (List Char × Json)),
        [Json.obj [("type".toList, Json.str "true_false".toList)]][k]? =
            some (Json.obj fs) →
          jsGet fs "type".toList = none →
          ∃ q, qs[k]? = some q ∧ q.qtype = Json.str QuestionType.mixed.key) := by
  have hty : ∀ j ∈ [Json.obj [("type".toList, Json.str "true_false".toList)]],
      ∃ fs, j = Json.obj fs ∧ TypeFieldOk QuestionType.mixed fs := by
    intro j hj
    simp only [List.mem_cons, List.not_mem_nil, or_false] at hj
    subst hj
    refine ⟨_, rfl, ?_⟩
    exact Or.inl ⟨"true_false".toList, by simp [concreteTypeKeys], rfl⟩
  exact ⟨rfl,
    c7_type_defaulting "[\x7b\"type\":\"true_false\"\x7d]".toList
      QuestionType.mixed
      [Json.obj [("type".toList, Json.str "true_false".toList)]] rfl hty⟩

/-- C8: the extractor emits slide contents in ascending numeric slide-number
order — for every archive the sorted slide paths are ordered by their
numeric keys and the emitted content is exactly the blank-line join of the
non-empty slides' `[Slide N]`-headed blocks in that order; on the demo
archive (slides listed as 10, 1, 2) the numeric order 1, 2, 10 results,
not lexicographic 1, 10, 2. -/
theorem c8_slide_ordering :
    (∀ entries, List.Sorted slideLE (sortedSlidePaths entries) ∧
      (parsePPTXFromEntries entries).content =
        joinSep "\n\n".toList
          ((sortedSlidePaths entries).filterMap (slideBlock entries))) ∧
    ((sortedSlidePaths demoEntries).map slideKey = [1, 2, 10] ∧
      (parsePPTXFromEntries demoEntries).content =
        "[Slide 1]\nAlpha\n\n[Slide 2]\nBeta\n\n[Slide 10]\nGamma".toList) := by
  refine ⟨fun entries =>
    ⟨List.sorted_insertionSort slideLE (slideEntryPaths entries),
      parsePPTX_content entries⟩, ?_, ?_⟩
  · rfl
  · rfl

/-- C9: every ExtractionResult produced by the dispatcher, the slide
strategy, or the PDF strategy satisfies the invariant: success implies the
content is non-empty after whitespace normalization, and failure implies
empty content with the error field set. -/
theorem c9_extraction_invariant :
    (∀ f, ResultInvariant (parseFileBuffer f)) ∧
    (∀ a, ResultInvariant (parsePPTXFromArchive a)) ∧
    (∀ d, ResultInvariant (parsePDFFromData d)) :=
  ⟨invariant_parseFileBuffer, invariant_pptx_archive, invariant_pdf_data⟩

/-- C10: an input whose filename extension is not pptx, ppt, or pdf fails
with the unsupported-type error regardless of the byte contents — the
result does not depend on the payload at all, so no parsing of the bytes is
ever attempted. -/
theorem c10_unsupported_extension (name : List Char)
    (a1 a2 : Option (List (List Char × List Char))) (d1 d2 : Option PdfData)
    (h : isSupportedFile name = false) :
    (parseFileBuffer ⟨name, a1, d1⟩).success = false ∧
    (parseFileBuffer ⟨name, a1, d1⟩).content = [] ∧
    (parseFileBuffer ⟨name, a1, d1⟩).error =
      some ("Unsupported file type: .".toList ++ getFileExtension name) ∧
    parseFileBuffer ⟨name, a1, d1⟩ = parseFileBuffer ⟨name, a2, d2⟩ := by
  have hns : ¬ (isSupportedFile name = true) := by simp [h]
  refine ⟨?_, ?_, ?_, ?_⟩ <;>
    simp only [parseFileBuffer, if_pos hns]

/-- Witness for C10: a `.txt` upload is rejected identically for two
different payloads. -/
theorem c10_unsupported_extension_witness :
    isSupportedFile "notes.txt".toList = false ∧
    ((parseFileBuffer ⟨"notes.txt".toList, none, none⟩).success = false ∧
      (parseFileBuffer ⟨"notes.txt".toList, none, none⟩).content = [] ∧
      (parseFileBuffer ⟨"notes.txt".toList, none, none⟩).error =
        some ("Unsupported file type: .".toList ++
          getFileExtension "notes.txt".toList) ∧
      parseFileBuffer ⟨"notes.txt".toList, none, none⟩ =
        parseFileBuffer ⟨"notes.txt".toList, some demoEntries,
          some { text := "stub".toList, numpages := 1 }⟩) :=
  ⟨rfl, c10_unsupported_extension "notes.txt".toList none (some demoEntries)
    none (some { text := "stub".toList, numpages := 1 }) rfl⟩

end AIReviewer
